import Mathlib

/-!
Shallow embedding of the SA-MP bcrypt plugin (src/main.cpp).

The plugin exposes two natives, bcrypt_hash and bcrypt_check, which
validate their arguments, spawn a detached worker thread, and return
immediately.  Workers compute via the external bcrypt primitive and
append a result record to the global bcrypt_queue under
bcrypt_queue_mutex.  ProcessTick, running on the host's single thread,
drains the queue: for every registered AMX context (p_Amx) and every
queued record it invokes the matching public callback when the context
implements it, then clears the queue.

External collaborators (the bcrypt hashing primitive from bcrypt.h and
the AMX string/callback marshalling from the SA-MP SDK) are modelled as
function parameters or boolean capabilities; everything that lives in
main.cpp is translated directly.
-/

namespace BcryptSamp

/-- Tag of a queued result record (BCRYPT_QUEUE_HASH / BCRYPT_QUEUE_CHECK). -/
inductive QueueType where
  | hash
  | check
  deriving DecidableEq, Repr

/-- One entry of the global bcrypt_queue (struct bcrypt_queue_item).
The source field named by the reserved word match is called matched here. -/
structure bcrypt_queue_item where
  type : QueueType
  thread_idx : Int
  thread_id : Int
  hash : String
  matched : Bool
  deriving DecidableEq, Repr

/-- The external bcrypt builder object from bcrypt.h (out of scope of the
repository core): it accumulates the cost, the algorithm tag and the key.
The source field named by the reserved word prefix is called pfx here. -/
structure bcrypt where
  cost : Int
  pfx : String
  key : String
  deriving DecidableEq, Repr

/-- crypter->setCost(cost) -/
def bcrypt.setCost (b : bcrypt) (c : Int) : bcrypt := { b with cost := c }

/-- crypter->setPrefix("2y"); named setPfx for the reason given on bcrypt. -/
def bcrypt.setPfx (b : bcrypt) (p : String) : bcrypt := { b with pfx := p }

/-- crypter->setKey(buffer) -/
def bcrypt.setKey (b : bcrypt) (k : String) : bcrypt := { b with key := k }

/-- Worker body for bcrypt_hash (thread_generate_bcrypt): builds the
crypter, computes the digest with the external primitive generate, and
produces the HASH record that is appended to bcrypt_queue under the lock. -/
def thread_generate_bcrypt (generate : bcrypt → String)
    (thread_idx thread_id : Int) (buffer : String) (cost : Int) :
    bcrypt_queue_item :=
  let crypter : bcrypt := { cost := 0, pfx := "", key := "" }
  let crypter := ((crypter.setCost cost).setPfx "2y").setKey buffer
  let hash := generate crypter
  { type := QueueType.hash, thread_idx := thread_idx, thread_id := thread_id,
    hash := hash, matched := false }

/-- Worker body for bcrypt_check (thread_check_bcrypt): compares via the
external primitive compare and produces the CHECK record that is appended
to bcrypt_queue under the lock. -/
def thread_check_bcrypt (compare : String → String → Bool)
    (thread_idx thread_id : Int) (password hash : String) :
    bcrypt_queue_item :=
  let matched := compare password hash
  { type := QueueType.check, thread_idx := thread_idx, thread_id := thread_id,
    hash := "", matched := matched }

/-- The diagnostic line produced by bcrypt_error via logprintf with the
format string of main.cpp line 18. -/
def bcrypt_error (funcname error : String) : String :=
  "bcrypt error: " ++ error ++ " (Called from " ++ funcname ++ ")"

/-- sizeof(cell) in the SA-MP SDK: cells are 32-bit. -/
def cellBytes : Int := 4

/-- The C cast (unsigned short)params[4]: reduction of the cell value
modulo 2^16.  Int emod with a positive modulus lands in [0, 65536). -/
def ushortCast (c : Int) : Int := c % 65536

/-- Arguments of a bcrypt_hash native call after AMX marshalling:
params[0] is the argument byte count, params[1] and params[2] the two
integer cells, params[3] a string reference (modelled by the marshalled
string), params[4] the raw cost cell. -/
structure HashParams where
  paramBytes : Int
  thread_idx : Int
  thread_id : Int
  password : String
  cost_cell : Int
  deriving DecidableEq, Repr

/-- The data handed to the detached worker thread spawned by bcrypt_hash. -/
structure HashJob where
  thread_idx : Int
  thread_id : Int
  password : String
  cost : Int
  deriving DecidableEq, Repr

/-- Observable outcome of one bcrypt_hash native call: the cell returned
to pawn, the diagnostic lines emitted, and the worker thread spawned (if
any).  The native touches neither bcrypt_queue nor p_Amx. -/
structure HashNativeResult where
  retval : Int
  logged : List String
  spawned : Option HashJob
  deriving DecidableEq, Repr

/-- native bcrypt_hash(thread_idx, thread_id, password[], cost):
arity check against 4*sizeof(cell), cast of the cost cell to unsigned
short, range check 4..31, string fetch (the empty string when
amx_StrLen reports 0), then thread spawn and immediate return 1. -/
def bcrypt_hash (p : HashParams) : HashNativeResult :=
  if p.paramBytes ≠ 4 * cellBytes then
    { retval := 0,
      logged := [bcrypt_error "bcrypt_hash" "Incorrect number of parameters (4 required)"],
      spawned := none }
  else
    let thread_idx := p.thread_idx
    let thread_id := p.thread_id
    let cost := ushortCast p.cost_cell
    if cost < 4 ∨ cost > 31 then
      { retval := 0,
        logged := [bcrypt_error "bcrypt_hash" "Invalid work factor (cost). Allowed range: 4-31"],
        spawned := none }
    else
      let password := if p.password.length ≠ 0 then p.password else ""
      { retval := 1, logged := [],
        spawned := some { thread_idx := thread_idx, thread_id := thread_id,
                          password := password, cost := cost } }

/-- Arguments of a bcrypt_check native call after AMX marshalling. -/
structure CheckParams where
  paramBytes : Int
  thread_idx : Int
  thread_id : Int
  password : String
  hash : String
  deriving DecidableEq, Repr

/-- The data handed to the detached worker thread spawned by bcrypt_check. -/
structure CheckJob where
  thread_idx : Int
  thread_id : Int
  password : String
  hash : String
  deriving DecidableEq, Repr

/-- Observable outcome of one bcrypt_check native call. -/
structure CheckNativeResult where
  retval : Int
  logged : List String
  spawned : Option CheckJob
  deriving DecidableEq, Repr

/-- native bcrypt_check(thread_idx, thread_id, const password[], const hash[]):
arity check, two string fetches (each the empty string when amx_StrLen
reports 0), then thread spawn and immediate return 1. -/
def bcrypt_check (p : CheckParams) : CheckNativeResult :=
  if p.paramBytes ≠ 4 * cellBytes then
    { retval := 0,
      logged := [bcrypt_error "bcrypt_check" "Incorrect number of parameters (4 required)"],
      spawned := none }
  else
    let thread_idx := p.thread_idx
    let thread_id := p.thread_id
    let password := if p.password.length ≠ 0 then p.password else ""
    let hash := if p.hash.length ≠ 0 then p.hash else ""
    { retval := 1, logged := [],
      spawned := some { thread_idx := thread_idx, thread_id := thread_id,
                        password := password, hash := hash } }

/-- A registered AMX context: its identity (the AMX pointer) and which of
the two public callbacks amx_FindPublic can locate in it. -/
structure AmxCtx where
  ctxId : Int
  hasOnBcryptHashed : Bool
  hasOnBcryptChecked : Bool
  deriving DecidableEq, Repr

/-- One callback invocation performed by ProcessTick (amx_Push calls
followed by amx_Exec), recording the context and the pushed arguments. -/
inductive Invocation where
  | onBcryptHashed (ctxId : Int) (thread_idx thread_id : Int) (hash : String)
  | onBcryptChecked (ctxId : Int) (thread_idx thread_id : Int) (matched : Bool)
  deriving DecidableEq, Repr

/-- Delivery of one queue record to one context, as in the inner loop of
ProcessTick: a HASH record fires OnBcryptHashed when the context has it,
a CHECK record fires OnBcryptChecked when the context has it, and
otherwise the record is skipped for that context. -/
def deliverItem (a : AmxCtx) (t : bcrypt_queue_item) : Option Invocation :=
  match t.type with
  | QueueType.hash =>
      if a.hasOnBcryptHashed then
        some (Invocation.onBcryptHashed a.ctxId t.thread_idx t.thread_id t.hash)
      else none
  | QueueType.check =>
      if a.hasOnBcryptChecked then
        some (Invocation.onBcryptChecked a.ctxId t.thread_idx t.thread_id t.matched)
      else none

/-- The inner iterator loop of ProcessTick: one context visits the queue
records in queue order. -/
def drainInner (a : AmxCtx) (queue : List bcrypt_queue_item) : List Invocation :=
  queue.foldl (fun acc t => acc ++ (deliverItem a t).toList) []

/-- The outer iterator loop of ProcessTick: contexts are visited in
p_Amx order. -/
def drainAll (ctxs : List AmxCtx) (queue : List bcrypt_queue_item) :
    List Invocation :=
  ctxs.foldl (fun acc a => acc ++ drainInner a queue) []

/-- The plugin's global mutable state: the context registry p_Amx and the
result queue bcrypt_queue. -/
structure PluginState where
  p_Amx : List AmxCtx
  bcrypt_queue : List bcrypt_queue_item
  deriving DecidableEq, Repr

/-- ProcessTick: when bcrypt_queue is non-empty, iterate all contexts
over all records (producing the callback invocations in order) and clear
the queue; otherwise do nothing.  p_Amx is never modified. -/
def ProcessTick (st : PluginState) : List Invocation × PluginState :=
  if st.bcrypt_queue.length > 0 then
    (drainAll st.p_Amx st.bcrypt_queue, { st with bcrypt_queue := [] })
  else
    ([], st)

/-- AmxLoad: a newly attached context is appended to the registry. -/
def AmxLoad (st : PluginState) (amx : AmxCtx) : PluginState :=
  { st with p_Amx := st.p_Amx ++ [amx] }

/-- AmxUnload: the first registry entry with the detaching context's
identity is erased. -/
def AmxUnload (st : PluginState) (amx : AmxCtx) : PluginState :=
  { st with p_Amx := st.p_Amx.eraseP (fun c => c.ctxId == amx.ctxId) }

/-- One serialized event on the queue: bcrypt_queue_mutex serializes the
workers' push_back against ProcessTick's iterate-and-clear, so a history
is a sequence of appends and drain cycles. -/
inductive ServerOp where
  | append (r : bcrypt_queue_item)
  | tick (ctxs : List AmxCtx)
  deriving Repr

/-- Run a history of serialized events from a starting queue; returns the
list of batches (for each drain cycle, the records that cycle offers for
delivery) and the final queue contents. -/
def runOps : List bcrypt_queue_item → List ServerOp →
    List (List bcrypt_queue_item) × List bcrypt_queue_item
  | queue, [] => ([], queue)
  | queue, ServerOp.append r :: ops => runOps (queue ++ [r]) ops
  | queue, ServerOp.tick _ :: ops =>
      if queue.length > 0 then
        ((queue :: (runOps [] ops).1), (runOps [] ops).2)
      else
        (([] :: (runOps queue ops).1), (runOps queue ops).2)

/-- The records appended over a history, in order. -/
def appendsOf : List ServerOp → List bcrypt_queue_item
  | [] => []
  | ServerOp.append r :: ops => r :: appendsOf ops
  | ServerOp.tick _ :: ops => appendsOf ops

/-- Whether amx_FindPublic locates, in context a, the public callback
matching a record of the given type. -/
def implementsFor (a : AmxCtx) : QueueType → Bool
  | QueueType.hash => a.hasOnBcryptHashed
  | QueueType.check => a.hasOnBcryptChecked

theorem drainInner_eq_filterMap (a : AmxCtx) (queue : List bcrypt_queue_item) :
    drainInner a queue = queue.filterMap (deliverItem a) := by
  have h : ∀ (q : List bcrypt_queue_item) (acc : List Invocation),
      q.foldl (fun acc t => acc ++ (deliverItem a t).toList) acc =
        acc ++ q.filterMap (deliverItem a) := by
    intro q
    induction q with
    | nil => intro acc; simp
    | cons t q ih =>
        intro acc
        rw [List.foldl_cons, ih, List.filterMap_cons]
        cases h : deliverItem a t <;> simp
  simpa [drainInner] using h queue []

theorem drainAll_eq_bind (ctxs : List AmxCtx) (queue : List bcrypt_queue_item) :
    drainAll ctxs queue = ctxs.flatMap (fun a => queue.filterMap (deliverItem a)) := by
  have h : ∀ (cs : List AmxCtx) (acc : List Invocation),
      cs.foldl (fun acc a => acc ++ drainInner a queue) acc =
        acc ++ cs.flatMap (fun a => queue.filterMap (deliverItem a)) := by
    intro cs
    induction cs with
    | nil => intro acc; simp
    | cons c cs ih =>
        intro acc
        rw [List.foldl_cons, ih, drainInner_eq_filterMap]
        simp [List.append_assoc]
  simpa [drainAll] using h ctxs []

theorem ProcessTick_fst (st : PluginState) :
    (ProcessTick st).1 =
      st.p_Amx.flatMap (fun a => st.bcrypt_queue.filterMap (deliverItem a)) := by
  unfold ProcessTick
  by_cases h : st.bcrypt_queue.length > 0
  · rw [if_pos h]
    exact drainAll_eq_bind _ _
  · rw [if_neg h]
    have hq : st.bcrypt_queue = [] := by
      cases hq : st.bcrypt_queue with
      | nil => rfl
      | cons x xs => exact absurd (by rw [hq]; simp) h
    rw [hq]
    induction st.p_Amx with
    | nil => simp
    | cons c cs ih => simp [ih]

theorem deliverItem_isSome (a : AmxCtx) (t : bcrypt_queue_item) :
    (deliverItem a t).isSome = implementsFor a t.type := by
  cases h : t.type <;>
    simp only [deliverItem, implementsFor, h] <;>
    cases a.hasOnBcryptHashed <;> cases a.hasOnBcryptChecked <;> simp

theorem count_flatten_sum (r : bcrypt_queue_item) :
    ∀ (l : List (List bcrypt_queue_item)), l.flatten.count r = (l.map (fun b => b.count r)).sum := by
  intro l
  induction l with
  | nil => simp
  | cons b l ih => simp [List.count_append, ih]

/-- C1: a record appended to the Result Queue is offered for delivery in
exactly one drain cycle.  Over any serialized history: (1) the
concatenation of the per-cycle batches followed by the still-pending
queue is exactly the initial queue followed by the appended records, so
nothing is lost, duplicated or reordered; (2) hence each record value is
offered, counted with multiplicity, exactly as often as it was appended;
(3) the batch of the very next drain cycle is exactly the currently
pending queue, so a record pending now is captured by the immediately
following cycle, and the clear in that cycle removes it. -/
theorem result_queue_exactly_once (init : List bcrypt_queue_item) (ops : List ServerOp) :
    ((runOps init ops).1.flatten ++ (runOps init ops).2 = init ++ appendsOf ops)
    ∧ (∀ r : bcrypt_queue_item,
        ((runOps init ops).1.map (fun b => b.count r)).sum + (runOps init ops).2.count r
          = init.count r + (appendsOf ops).count r)
    ∧ (∀ (ctxs : List AmxCtx) (ops' : List ServerOp),
        (runOps init (ServerOp.tick ctxs :: ops')).1.head? = some init) := by
  have main : ∀ (ops : List ServerOp) (init : List bcrypt_queue_item),
      (runOps init ops).1.flatten ++ (runOps init ops).2 = init ++ appendsOf ops := by
    intro ops
    induction ops with
    | nil => intro init; simp [runOps, appendsOf]
    | cons op ops ih =>
        intro init
        cases op with
        | append r =>
            show (runOps (init ++ [r]) ops).1.flatten ++ (runOps (init ++ [r]) ops).2 = _
            rw [ih (init ++ [r])]
            simp [appendsOf]
        | tick ctxs =>
            show (runOps init (ServerOp.tick ctxs :: ops)).1.flatten ++ _ = _
            unfold runOps
            by_cases h : init.length > 0
            · rw [if_pos h]
              simp only [List.flatten_cons, List.append_assoc, ih []]
              simp [appendsOf]
            · rw [if_neg h]
              have hq : init = [] := by
                cases hq : init with
                | nil => rfl
                | cons x xs => exact absurd (by rw [hq]; simp) h
              subst hq
              simp only [List.flatten_cons, List.nil_append, ih []]
              simp [appendsOf]
  refine ⟨main ops init, ?_, ?_⟩
  · intro r
    have h := congrArg (fun l => l.count r) (main ops init)
    simpa [List.count_append, count_flatten_sum] using h
  · intro ctxs ops'
    cases hq : init with
    | nil => simp [runOps]
    | cons x xs => simp [runOps]

/-- C5: within one drain cycle the invocation sequence is a deterministic
function of the snapshot and the registry: ProcessTick produces exactly
the invocations obtained by visiting the registered contexts in registry
order and, for each context, the queued records in queue order, skipping
the pairs without a matching callback. -/
theorem processTick_delivery_order (st : PluginState) :
    (ProcessTick st).1 =
      st.p_Amx.flatMap (fun a => st.bcrypt_queue.filterMap (deliverItem a)) :=
  ProcessTick_fst st

/-- C8: a drain cycle over an empty Result Queue performs zero callback
invocations and leaves the whole plugin state, registry included,
unchanged. -/
theorem processTick_empty_noop (st : PluginState) (h : st.bcrypt_queue = []) :
    ProcessTick st = ([], st) := by
  simp [ProcessTick, h]

/-- Witness for C8 at a concrete state with one registered context. -/
theorem processTick_empty_noop_witness :
    ProcessTick { p_Amx := [{ ctxId := 1, hasOnBcryptHashed := true, hasOnBcryptChecked := false }],
                  bcrypt_queue := [] }
      = ([], { p_Amx := [{ ctxId := 1, hasOnBcryptHashed := true, hasOnBcryptChecked := false }],
               bcrypt_queue := [] }) :=
  processTick_empty_noop _ rfl

theorem bcrypt_hash_eval (p : HashParams) (harity : p.paramBytes = 4 * cellBytes) :
    bcrypt_hash p =
      if ushortCast p.cost_cell < 4 ∨ ushortCast p.cost_cell > 31 then
        { retval := 0,
          logged := [bcrypt_error "bcrypt_hash" "Invalid work factor (cost). Allowed range: 4-31"],
          spawned := none }
      else
        { retval := 1, logged := [],
          spawned := some { thread_idx := p.thread_idx, thread_id := p.thread_id,
                            password := if p.password.length ≠ 0 then p.password else "",
                            cost := ushortCast p.cost_cell } } := by
  simp [bcrypt_hash, harity]

theorem bcrypt_hash_retval (p : HashParams) (harity : p.paramBytes = 4 * cellBytes) :
    (bcrypt_hash p).retval =
      if 4 ≤ ushortCast p.cost_cell ∧ ushortCast p.cost_cell ≤ 31 then 1 else 0 := by
  rw [bcrypt_hash_eval p harity]
  rcases lt_or_le (ushortCast p.cost_cell) 4 with h4 | h4
  · rw [if_pos (Or.inl h4), if_neg (by omega)]
  · rcases le_or_lt (ushortCast p.cost_cell) 31 with h31 | h31
    · rw [if_neg (by omega)]
      show (1 : Int) = if 4 ≤ ushortCast p.cost_cell ∧ ushortCast p.cost_cell ≤ 31 then 1 else 0
      rw [if_pos ⟨h4, h31⟩]
    · rw [if_pos (Or.inr h31), if_neg (by omega)]

/-- C2: with correct arity, bcrypt_hash rejects exactly the cost values
outside the closed interval 4..31 of the unsigned-short cost parameter:
a rejected call returns 0 and spawns no worker, an accepted call spawns
a worker carrying that cost and returns the success indicator 1 at once
(the return value is computed without the hashing primitive, so the
native never waits for the worker). -/
theorem bcrypt_hash_cost_bounds (p : HashParams)
    (harity : p.paramBytes = 4 * cellBytes)
    (h0 : 0 ≤ p.cost_cell) (h1 : p.cost_cell < 65536) :
    ((p.cost_cell < 4 ∨ 31 < p.cost_cell) →
        (bcrypt_hash p).retval = 0 ∧ (bcrypt_hash p).spawned = none)
    ∧ ((4 ≤ p.cost_cell ∧ p.cost_cell ≤ 31) →
        (bcrypt_hash p).retval = 1 ∧
          ∃ j, (bcrypt_hash p).spawned = some j ∧ j.cost = p.cost_cell) := by
  have hcast : ushortCast p.cost_cell = p.cost_cell := Int.emod_eq_of_lt h0 h1
  rw [bcrypt_hash_eval p harity]
  constructor
  · intro hout
    rw [if_pos (by rw [hcast]; exact hout)]
    exact ⟨rfl, rfl⟩
  · intro hin
    rw [if_neg (fun hc => by rw [hcast] at hc; rcases hc with h | h <;> omega)]
    exact ⟨rfl, _, rfl, hcast⟩

/-- Witness for C2: cost 3 is rejected without a worker, cost 31 is
accepted with a worker carrying cost 31 and return value 1. -/
theorem bcrypt_hash_cost_bounds_witness :
    ((bcrypt_hash { paramBytes := 16, thread_idx := 1, thread_id := 2,
                    password := "pw", cost_cell := 3 }).retval = 0
      ∧ (bcrypt_hash { paramBytes := 16, thread_idx := 1, thread_id := 2,
                       password := "pw", cost_cell := 3 }).spawned = none)
    ∧ ((bcrypt_hash { paramBytes := 16, thread_idx := 1, thread_id := 2,
                      password := "pw", cost_cell := 31 }).retval = 1
      ∧ ∃ j, (bcrypt_hash { paramBytes := 16, thread_idx := 1, thread_id := 2,
                            password := "pw", cost_cell := 31 }).spawned = some j
          ∧ j.cost = 31) :=
  ⟨(bcrypt_hash_cost_bounds _ rfl (by decide) (by decide)).1 (by decide),
   (bcrypt_hash_cost_bounds _ rfl (by decide) (by decide)).2 (by decide)⟩

theorem length_flatMap_deliver (r : bcrypt_queue_item) :
    ∀ (cs : List AmxCtx), (∀ a ∈ cs, implementsFor a r.type = true) →
      (cs.flatMap (fun a => List.filterMap (deliverItem a) [r])).length = cs.length := by
  intro cs
  induction cs with
  | nil => intro _; simp
  | cons c cs ih =>
      intro h
      have hc : (deliverItem c r).isSome = true := by
        rw [deliverItem_isSome]
        exact h c (List.mem_cons_self c cs)
      obtain ⟨v, hv⟩ := Option.isSome_iff_exists.mp hc
      have hfil : List.filterMap (deliverItem c) [r] = [v] := by
        simp [List.filterMap_cons, hv]
      rw [List.flatMap_cons, List.length_append, hfil,
        ih (fun a ha => h a (List.mem_cons_of_mem c ha)),
        List.length_singleton, List.length_cons]
      omega

/-- C3: delivery is broadcast.  (1) whether a record is offered to a
context depends only on the record's type and the context's callbacks,
never on the record's callerContextIndex, and a context lacking the
matching public callback is skipped without error; (2) with M registered
contexts all implementing the matching callback and a single completed
job, the drain cycle performs exactly M callback invocations. -/
theorem processTick_broadcast :
    (∀ (a : AmxCtx) (t : bcrypt_queue_item),
        (deliverItem a t).isSome = implementsFor a t.type)
    ∧ (∀ (ctxs : List AmxCtx) (r : bcrypt_queue_item),
        (∀ a ∈ ctxs, implementsFor a r.type = true) →
        (ProcessTick { p_Amx := ctxs, bcrypt_queue := [r] }).1.length = ctxs.length) := by
  refine ⟨deliverItem_isSome, ?_⟩
  intro ctxs r h
  rw [ProcessTick_fst]
  exact length_flatMap_deliver r ctxs h

/-- Witness for C3 at one HASH record and two contexts implementing both
callbacks: the record is offered to a context exactly when the context
implements OnBcryptHashed, and the cycle fires two invocations. -/
theorem processTick_broadcast_witness :
    (deliverItem { ctxId := 1, hasOnBcryptHashed := true, hasOnBcryptChecked := true }
        { type := QueueType.hash, thread_idx := 7, thread_id := 42,
          hash := "digest", matched := false }).isSome
      = implementsFor { ctxId := 1, hasOnBcryptHashed := true, hasOnBcryptChecked := true }
          QueueType.hash
    ∧ (ProcessTick
        { p_Amx := [{ ctxId := 1, hasOnBcryptHashed := true, hasOnBcryptChecked := true },
                    { ctxId := 2, hasOnBcryptHashed := true, hasOnBcryptChecked := true }],
          bcrypt_queue := [{ type := QueueType.hash, thread_idx := 7, thread_id := 42,
                             hash := "digest", matched := false }] }).1.length = 2 :=
  ⟨processTick_broadcast.1 _ _,
   processTick_broadcast.2 _ _ (by decide)⟩

/-- C4: shape of every record a worker appends: a HASH record carries the
digest computed by the external primitive on the crypter built with the
job's cost, the fixed algorithm tag 2y and the job's password, with the
match flag false; a CHECK record carries the empty hash string and the
comparison outcome; both copy thread_idx and thread_id from the job
unchanged. -/
theorem worker_result_shape
    (generate : bcrypt → String) (compare : String → String → Bool)
    (thread_idx thread_id : Int) (buffer password hash : String) (cost : Int) :
    thread_generate_bcrypt generate thread_idx thread_id buffer cost =
      { type := QueueType.hash, thread_idx := thread_idx, thread_id := thread_id,
        hash := generate { cost := cost, pfx := "2y", key := buffer }, matched := false }
    ∧ thread_check_bcrypt compare thread_idx thread_id password hash =
      { type := QueueType.check, thread_idx := thread_idx, thread_id := thread_id,
        hash := "", matched := compare password hash } :=
  ⟨rfl, rfl⟩

/-- C6: malformed requests are rejected synchronously: a wrong argument
byte count on either native, or an out-of-range cost on bcrypt_hash,
yields exactly one diagnostic line naming the native and the reason,
return value 0 and no spawned worker; the natives are total functions,
so no exception or panic occurs. -/
theorem malformed_request_rejected :
    (∀ p : HashParams, p.paramBytes ≠ 4 * cellBytes →
        bcrypt_hash p =
          { retval := 0,
            logged := [bcrypt_error "bcrypt_hash" "Incorrect number of parameters (4 required)"],
            spawned := none })
    ∧ (∀ p : HashParams, p.paramBytes = 4 * cellBytes →
        (ushortCast p.cost_cell < 4 ∨ ushortCast p.cost_cell > 31) →
        bcrypt_hash p =
          { retval := 0,
            logged := [bcrypt_error "bcrypt_hash" "Invalid work factor (cost). Allowed range: 4-31"],
            spawned := none })
    ∧ (∀ p : CheckParams, p.paramBytes ≠ 4 * cellBytes →
        bcrypt_check p =
          { retval := 0,
            logged := [bcrypt_error "bcrypt_check" "Incorrect number of parameters (4 required)"],
            spawned := none }) := by
  refine ⟨?_, ?_, ?_⟩
  · intro p h
    simp [bcrypt_hash, h]
  · intro p harity hout
    rw [bcrypt_hash_eval p harity, if_pos hout]
  · intro p h
    simp [bcrypt_check, h]

/-- Witness for C6: a 3-argument bcrypt_hash call, a bcrypt_hash call
with cost 32, and a 5-argument bcrypt_check call, each rejected with its
single diagnostic line. -/
theorem malformed_request_rejected_witness :
    bcrypt_hash { paramBytes := 12, thread_idx := 1, thread_id := 2,
                  password := "pw", cost_cell := 10 } =
      { retval := 0,
        logged := [bcrypt_error "bcrypt_hash" "Incorrect number of parameters (4 required)"],
        spawned := none }
    ∧ bcrypt_hash { paramBytes := 16, thread_idx := 1, thread_id := 2,
                    password := "pw", cost_cell := 32 } =
      { retval := 0,
        logged := [bcrypt_error "bcrypt_hash" "Invalid work factor (cost). Allowed range: 4-31"],
        spawned := none }
    ∧ bcrypt_check { paramBytes := 20, thread_idx := 1, thread_id := 2,
                     password := "pw", hash := "h" } =
      { retval := 0,
        logged := [bcrypt_error "bcrypt_check" "Incorrect number of parameters (4 required)"],
        spawned := none } :=
  ⟨malformed_request_rejected.1 _ (by decide),
   malformed_request_rejected.2.1 _ rfl (by decide),
   malformed_request_rejected.2.2 _ (by decide)⟩

theorem string_length_zero (s : String) (h : s.length = 0) : s = "" := by
  cases s with
  | mk data =>
      cases data with
      | nil => rfl
      | cons c cs => simp [String.length] at h

/-- C7: zero-length string payloads are not an error: a well-formed
bcrypt_hash call with the empty password is accepted and its worker
carries the empty password; a well-formed bcrypt_check call is always
accepted with its worker carrying both payloads unchanged, and in
particular a call with only the password empty, or only the hash empty,
proceeds with the empty string as that payload. -/
theorem empty_string_accepted :
    (∀ p : HashParams, p.paramBytes = 4 * cellBytes →
        4 ≤ ushortCast p.cost_cell → ushortCast p.cost_cell ≤ 31 →
        p.password = "" →
        (bcrypt_hash p).retval = 1 ∧
          (bcrypt_hash p).spawned =
            some { thread_idx := p.thread_idx, thread_id := p.thread_id,
                   password := "", cost := ushortCast p.cost_cell })
    ∧ (∀ p : CheckParams, p.paramBytes = 4 * cellBytes →
        (bcrypt_check p).retval = 1 ∧
          (bcrypt_check p).spawned =
            some { thread_idx := p.thread_idx, thread_id := p.thread_id,
                   password := p.password, hash := p.hash })
    ∧ (∀ p : CheckParams, p.paramBytes = 4 * cellBytes → p.password = "" →
        (bcrypt_check p).retval = 1 ∧
          (bcrypt_check p).spawned =
            some { thread_idx := p.thread_idx, thread_id := p.thread_id,
                   password := "", hash := p.hash })
    ∧ (∀ p : CheckParams, p.paramBytes = 4 * cellBytes → p.hash = "" →
        (bcrypt_check p).retval = 1 ∧
          (bcrypt_check p).spawned =
            some { thread_idx := p.thread_idx, thread_id := p.thread_id,
                   password := p.password, hash := "" }) := by
  refine ⟨?_, ?_, ?_, ?_⟩
  · intro p harity h4 h31 hpw
    rw [bcrypt_hash_eval p harity, if_neg (by omega)]
    exact ⟨rfl, by simp [hpw]⟩
  · intro p harity
    simp [bcrypt_check, harity]
    exact ⟨fun h => (string_length_zero _ h).symm, fun h => (string_length_zero _ h).symm⟩
  · intro p harity hpw
    simp [bcrypt_check, harity, hpw]
    exact fun h => (string_length_zero _ h).symm
  · intro p harity hh
    simp [bcrypt_check, harity, hh]
    exact fun h => (string_length_zero _ h).symm

/-- Witness for C7: an empty-password bcrypt_hash call with cost 10, a
bcrypt_check call with only the password empty, and a bcrypt_check call
with only the hash empty. -/
theorem empty_string_accepted_witness :
    ((bcrypt_hash { paramBytes := 16, thread_idx := 1, thread_id := 2,
                    password := "", cost_cell := 10 }).retval = 1
      ∧ (bcrypt_hash { paramBytes := 16, thread_idx := 1, thread_id := 2,
                       password := "", cost_cell := 10 }).spawned =
          some { thread_idx := 1, thread_id := 2, password := "", cost := 10 })
    ∧ ((bcrypt_check { paramBytes := 16, thread_idx := 1, thread_id := 2,
                       password := "", hash := "h" }).retval = 1
      ∧ (bcrypt_check { paramBytes := 16, thread_idx := 1, thread_id := 2,
                        password := "", hash := "h" }).spawned =
          some { thread_idx := 1, thread_id := 2, password := "", hash := "h" })
    ∧ ((bcrypt_check { paramBytes := 16, thread_idx := 1, thread_id := 2,
                       password := "pw", hash := "" }).retval = 1
      ∧ (bcrypt_check { paramBytes := 16, thread_idx := 1, thread_id := 2,
                        password := "pw", hash := "" }).spawned =
          some { thread_idx := 1, thread_id := 2, password := "pw", hash := "" }) :=
  ⟨empty_string_accepted.1 _ rfl (by decide) (by decide) rfl,
   empty_string_accepted.2.2.1 _ rfl rfl,
   empty_string_accepted.2.2.2 _ rfl rfl⟩

/-- C9: a drain cycle over a non-empty queue with no registered contexts
performs zero callback invocations and still clears the queue; and every
invocation any cycle ever performs arises from a context registered and
a record queued at that cycle's start, so records discarded by an empty
cycle are never delivered later. -/
theorem processTick_no_contexts_discards :
    (∀ q : List bcrypt_queue_item, q ≠ [] →
        ProcessTick { p_Amx := [], bcrypt_queue := q } =
          ([], { p_Amx := [], bcrypt_queue := [] }))
    ∧ (∀ (st : PluginState) (inv : Invocation), inv ∈ (ProcessTick st).1 →
        ∃ a ∈ st.p_Amx, ∃ t ∈ st.bcrypt_queue, deliverItem a t = some inv) := by
  constructor
  · intro q hq
    have hl : q.length > 0 := List.length_pos.mpr hq
    simp [ProcessTick, hl, drainAll]
  · intro st inv hinv
    rw [ProcessTick_fst] at hinv
    obtain ⟨a, ha, hmem⟩ := List.mem_flatMap.mp hinv
    obtain ⟨t, ht, hdel⟩ := List.mem_filterMap.mp hmem
    exact ⟨a, ha, t, ht, hdel⟩

/-- Witness for C9: one pending CHECK record, no contexts: the cycle
fires nothing and empties the queue. -/
theorem processTick_no_contexts_discards_witness :
    ProcessTick { p_Amx := [],
                  bcrypt_queue := [{ type := QueueType.check, thread_idx := 1,
                                     thread_id := 2, hash := "", matched := true }] } =
      ([], { p_Amx := [], bcrypt_queue := [] }) :=
  processTick_no_contexts_discards.1 _ (by decide)

/-- C10: with correct arity, bcrypt_hash reduces the raw cost cell modulo
2^16 (the C cast to unsigned short) before range-checking: the call is
accepted exactly when the reduced value lies in 4..31, and two cost
cells congruent modulo 65536 are treated identically. -/
theorem bcrypt_hash_cost_truncation (p : HashParams)
    (harity : p.paramBytes = 4 * cellBytes) :
    ((bcrypt_hash p).retval =
        if 4 ≤ p.cost_cell % 65536 ∧ p.cost_cell % 65536 ≤ 31 then 1 else 0)
    ∧ (∀ p' : HashParams, p'.paramBytes = 4 * cellBytes →
        p.cost_cell % 65536 = p'.cost_cell % 65536 →
        (bcrypt_hash p).retval = (bcrypt_hash p').retval) := by
  constructor
  · exact bcrypt_hash_retval p harity
  · intro p' harity' hmod
    rw [bcrypt_hash_retval p harity, bcrypt_hash_retval p' harity']
    rw [ushortCast, ushortCast, hmod]

/-- Witness for C10: the cell 65540 truncates to 4 and is accepted; the
cell -1 truncates to 65535 and is rejected. -/
theorem bcrypt_hash_cost_truncation_witness :
    (bcrypt_hash { paramBytes := 16, thread_idx := 1, thread_id := 2,
                   password := "pw", cost_cell := 65540 }).retval = 1
    ∧ (bcrypt_hash { paramBytes := 16, thread_idx := 1, thread_id := 2,
                     password := "pw", cost_cell := -1 }).retval = 0 := by
  have h1 := (bcrypt_hash_cost_truncation
    { paramBytes := 16, thread_idx := 1, thread_id := 2,
      password := "pw", cost_cell := 65540 } rfl).1
  have h2 := (bcrypt_hash_cost_truncation
    { paramBytes := 16, thread_idx := 1, thread_id := 2,
      password := "pw", cost_cell := -1 } rfl).1
  rw [h1, h2]
  exact ⟨by decide, by decide⟩

end BcryptSamp
